import Mathlib

set_option maxRecDepth 20000

/-!
Shallow embedding of the audio streaming server (`server.py`): the
capture-to-network bridge consisting of the bounded hand-off queue
(`SystemAudioTrack._push_frame`), the timestamped frame producer
(`SystemAudioTrack._callback` / `SystemAudioTrack.recv`), loopback device
selection (`SystemAudioTrack._find_loopback`), the signaling offer handler
(`offer`), session failure cleanup (`on_connectionstatechange`), capture
stop (`SystemAudioTrack.stop`) and server shutdown (`on_shutdown`).
-/

namespace AudioStream

/-- `SAMPLE_RATE = 48000` from `server.py`. -/
def SAMPLE_RATE : Nat := 48000

/-- `FRAME_SAMPLES = 960` from `server.py` (20 ms at 48 kHz). -/
def FRAME_SAMPLES : Nat := 960

/-- Capacity of the asyncio hand-off queue: `asyncio.Queue(maxsize=20)`. -/
def queueCapacity : Nat := 20

/-- `SystemAudioTrack._push_frame`: if the queue is full, drop the oldest
buffer (`get_nowait`), then insert the new one (`put_nowait`); the insert is
itself guarded by `except asyncio.QueueFull`, silently dropping the new
buffer if the queue is somehow still full. The list front is the oldest
(next-to-be-dequeued) element. Buffers are modelled by an arbitrary type. -/
def pushFrame {α : Type} (q : List α) (x : α) : List α :=
  let q1 := if queueCapacity ≤ q.length then q.tail else q
  if q1.length < queueCapacity then q1 ++ [x] else q1

/-- Iterated `_push_frame` over a sequence of pushed buffers. -/
def pushAll {α : Type} (q : List α) (xs : List α) : List α :=
  xs.foldl pushFrame q

theorem pushFrame_of_lt {α : Type} (q : List α) (x : α)
    (h : q.length < queueCapacity) : pushFrame q x = q ++ [x] := by
  simp only [pushFrame]
  rw [if_neg (show ¬ queueCapacity ≤ q.length by
    simp only [queueCapacity] at h ⊢; omega), if_pos h]

theorem pushFrame_of_full {α : Type} (q : List α) (x : α)
    (h : q.length = queueCapacity) : pushFrame q x = q.tail ++ [x] := by
  simp only [pushFrame]
  rw [if_pos (show queueCapacity ≤ q.length by
      simp only [queueCapacity] at h ⊢; omega),
    if_pos (show q.tail.length < queueCapacity by
      rw [List.length_tail]; simp only [queueCapacity] at h ⊢; omega)]

theorem pushFrame_length_le {α : Type} (q : List α) (x : α)
    (h : q.length ≤ queueCapacity) : (pushFrame q x).length ≤ queueCapacity := by
  rcases Nat.lt_or_ge q.length queueCapacity with hlt | hge
  · rw [pushFrame_of_lt q x hlt]
    simp only [List.length_append, List.length_cons, List.length_nil]
    omega
  · have heq : q.length = queueCapacity := Nat.le_antisymm h hge
    rw [pushFrame_of_full q x heq]
    simp only [List.length_append, List.length_tail, List.length_cons,
      List.length_nil, queueCapacity] at heq ⊢
    omega

theorem pushAll_eq_drop {α : Type} (xs : List α) :
    ∀ q : List α, q.length ≤ queueCapacity →
      pushAll q xs = (q ++ xs).drop ((q ++ xs).length - queueCapacity) := by
  induction xs with
  | nil =>
    intro q h
    simp only [pushAll, List.foldl_nil, List.append_nil]
    rw [Nat.sub_eq_zero_of_le h, List.drop_zero]
  | cons x xs ih =>
    intro q h
    have hstep : pushAll q (x :: xs) = pushAll (pushFrame q x) xs := rfl
    rw [hstep, ih (pushFrame q x) (pushFrame_length_le q x h)]
    rcases Nat.lt_or_ge q.length queueCapacity with hlt | hge
    · rw [pushFrame_of_lt q x hlt]
      simp [List.append_assoc]
    · have heq : q.length = queueCapacity := Nat.le_antisymm h hge
      rw [pushFrame_of_full q x heq]
      rcases q with _ | ⟨a, q'⟩
      · simp [queueCapacity] at heq
      · have hq' : q'.length = 19 := by
          simp only [List.length_cons, queueCapacity] at heq; omega
        have hL : q'.tail = q'.tail := rfl
        have hlen1 : ((a :: q').tail ++ [x] ++ xs).length - queueCapacity
            = xs.length := by
          simp only [List.tail_cons, List.length_append, List.length_cons,
            List.length_nil, queueCapacity]
          omega
        have hlen2 : ((a :: q') ++ x :: xs).length - queueCapacity
            = xs.length + 1 := by
          simp only [List.length_append, List.length_cons, queueCapacity]
          omega
        rw [hlen1, hlen2]
        have hcons : (a :: q') ++ x :: xs = a :: (q' ++ x :: xs) := rfl
        rw [hcons, List.drop_succ_cons]
        have hassoc : (a :: q').tail ++ [x] ++ xs = q' ++ x :: xs := by
          simp
        rw [hassoc]

/-- C2 -- After any sequence of pushes of length exceeding the capacity 20,
starting from an empty queue, the hand-off queue holds exactly the 20 most
recently pushed buffers in FIFO order (the suffix of the push sequence), its
length is exactly 20, and a push onto a queue at capacity evicts exactly the
oldest retained buffer (the front) before appending the new one. -/
theorem handoff_queue_drop_oldest (xs : List Nat) (h : queueCapacity < xs.length) :
    (pushAll [] xs).length = queueCapacity ∧
    pushAll [] xs = xs.drop (xs.length - queueCapacity) ∧
    ∀ (q : List Nat) (x : Nat), q.length = queueCapacity →
      pushFrame q x = q.tail ++ [x] := by
  have hd : pushAll ([] : List Nat) xs = xs.drop (xs.length - queueCapacity) := by
    have := pushAll_eq_drop xs ([] : List Nat) (by simp [queueCapacity])
    simpa using this
  refine ⟨?_, hd, fun q x hq => pushFrame_of_full q x hq⟩
  rw [hd, List.length_drop]
  omega

/-- Witness for C2: pushing the 21 buffers `0,…,20` leaves the queue holding
exactly `1,…,20`; buffer `0` (the first pushed) is gone, buffer `20` (the
last pushed) is present, and the length is 20. -/
theorem handoff_queue_drop_oldest_witness :
    (pushAll [] (List.range 21)).length = queueCapacity ∧
    pushAll [] (List.range 21) = (List.range 21).drop 1 ∧
    0 ∉ pushAll [] (List.range 21) ∧
    20 ∈ pushAll [] (List.range 21) := by
  have h := handoff_queue_drop_oldest (List.range 21) (by decide)
  refine ⟨h.1, ?_, by decide, by decide⟩
  have h2 := h.2.1
  simpa using h2

/-! ### Frame producer: `_callback` / `recv` trace semantics -/

/-- An event in one run of the capture/delivery loop: either the sounddevice
callback delivers a captured buffer (identified by a payload id) to the
asyncio loop (`_callback`, which adds `frames = FRAME_SAMPLES` to
`_sample_count` and schedules `_push_frame`), or the transport consumes one
frame (`recv`). -/
inductive Ev : Type
  | callback (data : Nat)
  | recv
deriving DecidableEq

/-- State of one `SystemAudioTrack` run: the hand-off queue (front =
oldest), the running `_sample_count`, and the frames returned so far by
`recv`, each a pair of the dequeued buffer and its presentation timestamp
`pts`. -/
structure TrackRun : Type where
  queue : List Nat
  sampleCount : Nat
  outputs : List (Nat × Nat)
deriving DecidableEq

/-- One step: `_callback` adds `FRAME_SAMPLES` to `_sample_count` and pushes
the buffer through `_push_frame`; `recv` dequeues the oldest buffer and
stamps it with `frame.pts = self._sample_count` read at that moment. In a
completed schedule a `recv` on an empty queue would have suspended, so it
is a no-op here; `recvStep` below models the suspension itself. -/
def step (s : TrackRun) : Ev → TrackRun
  | .callback d =>
    { s with sampleCount := s.sampleCount + FRAME_SAMPLES,
             queue := pushFrame s.queue d }
  | .recv =>
    match s.queue with
    | [] => s
    | d :: rest =>
      { s with queue := rest, outputs := s.outputs ++ [(d, s.sampleCount)] }

/-- The initial state set up by `SystemAudioTrack.__init__`. -/
def initTrack : TrackRun := ⟨[], 0, []⟩

/-- Run a complete schedule of events from the initial state. -/
def runTrace (tr : List Ev) : TrackRun := tr.foldl step initTrack

/-- `recv` as a partial operation: on an empty queue it returns `none`
(the `await self._queue.get()` suspends -- no frame is produced), otherwise
the dequeued buffer stamped with the current `_sample_count`. -/
def recvStep (s : TrackRun) : Option ((Nat × Nat) × TrackRun) :=
  match s.queue with
  | [] => none
  | d :: rest =>
    some ((d, s.sampleCount),
      { s with queue := rest, outputs := s.outputs ++ [(d, s.sampleCount)] })

/-- The buffers delivered by the capture callback during a schedule. -/
def capturedOf (tr : List Ev) : List Nat :=
  tr.filterMap (fun e => match e with | .callback d => some d | .recv => none)

/-- The spec predicate of C1: consecutive values strictly increase by
exactly `FRAME_SAMPLES`. -/
def StrictlyIncBy (d : Nat) (l : List Nat) : Prop :=
  List.Chain' (fun a b => b = a + d) l

instance StrictlyIncBy.instDecidable (d : Nat) (l : List Nat) :
    Decidable (StrictlyIncBy d l) :=
  inferInstanceAs (Decidable (List.Chain' (fun a b => b = a + d) l))

/-- The schedule in which each captured buffer is consumed before the next
callback fires (exactly one callback between consecutive dequeues). -/
def altTrace : List Nat → List Ev
  | [] => []
  | b :: bs => Ev.callback b :: Ev.recv :: altTrace bs

/-- The expected outputs of `altTrace`: each buffer stamped with the
cumulative sample count at its dequeue. -/
def stamps (c : Nat) : List Nat → List (Nat × Nat)
  | [] => []
  | b :: bs => (b, c + FRAME_SAMPLES) :: stamps (c + FRAME_SAMPLES) bs

theorem capturedOf_callback (d : Nat) (tr : List Ev) :
    capturedOf (Ev.callback d :: tr) = d :: capturedOf tr := rfl

theorem capturedOf_recv (tr : List Ev) :
    capturedOf (Ev.recv :: tr) = capturedOf tr := rfl

theorem mem_pushFrame {q : List Nat} {x b : Nat} (h : b ∈ pushFrame q x) :
    b ∈ q ∨ b = x := by
  simp only [pushFrame] at h
  split at h
  · split at h
    · rcases List.mem_append.mp h with h1 | h1
      · exact Or.inl (List.mem_of_mem_tail h1)
      · exact Or.inr (List.mem_singleton.mp h1)
    · exact Or.inl (List.mem_of_mem_tail h)
  · split at h
    · rcases List.mem_append.mp h with h1 | h1
      · exact Or.inl h1
      · exact Or.inr (List.mem_singleton.mp h1)
    · exact Or.inl h

theorem foldl_step_mem (tr : List Ev) :
    ∀ s : TrackRun,
      (∀ b, b ∈ (tr.foldl step s).queue → b ∈ s.queue ∨ b ∈ capturedOf tr) ∧
      (∀ p, p ∈ (tr.foldl step s).outputs →
        p ∈ s.outputs ∨ p.1 ∈ s.queue ∨ p.1 ∈ capturedOf tr) := by
  induction tr with
  | nil =>
    intro s
    exact ⟨fun b hb => Or.inl hb, fun p hp => Or.inl hp⟩
  | cons e tr ih =>
    intro s
    cases e with
    | callback d =>
      have hfold : (Ev.callback d :: tr).foldl step s
          = tr.foldl step (step s (Ev.callback d)) := rfl
      rw [hfold, capturedOf_callback]
      constructor
      · intro b hb
        rcases (ih (step s (Ev.callback d))).1 b hb with h1 | h1
        · rcases mem_pushFrame h1 with h2 | h2
          · exact Or.inl h2
          · exact Or.inr (h2 ▸ List.mem_cons_self d (capturedOf tr))
        · exact Or.inr (List.mem_cons_of_mem d h1)
      · intro p hp
        rcases (ih (step s (Ev.callback d))).2 p hp with h1 | h1 | h1
        · exact Or.inl h1
        · rcases mem_pushFrame h1 with h2 | h2
          · exact Or.inr (Or.inl h2)
          · exact Or.inr (Or.inr (h2 ▸ List.mem_cons_self d (capturedOf tr)))
        · exact Or.inr (Or.inr (List.mem_cons_of_mem d h1))
    | recv =>
      have hfold : (Ev.recv :: tr).foldl step s
          = tr.foldl step (step s Ev.recv) := rfl
      rw [hfold, capturedOf_recv]
      rcases hq : s.queue with _ | ⟨d, rest⟩
      · have hstep : step s Ev.recv = s := by
          simp [step, hq]
        rw [hstep, ← hq]
        exact ih s
      · have hstep : step s Ev.recv
            = { s with queue := rest, outputs := s.outputs ++ [(d, s.sampleCount)] } := by
          simp [step, hq]
        rw [hstep]
        constructor
        · intro b hb
          rcases (ih _).1 b hb with h1 | h1
          · exact Or.inl (List.mem_cons_of_mem d h1)
          · exact Or.inr h1
        · intro p hp
          rcases (ih _).2 p hp with h1 | h1 | h1
          · simp only [List.mem_append, List.mem_singleton] at h1
            rcases h1 with h2 | h2
            · exact Or.inl h2
            · refine Or.inr (Or.inl ?_)
              rw [h2]
              exact List.mem_cons_self d rest
          · exact Or.inr (Or.inl (List.mem_cons_of_mem d h1))
          · exact Or.inr (Or.inr h1)

theorem foldl_step_mono (tr : List Ev) :
    ∀ s : TrackRun,
      ((s.outputs.map Prod.snd).Pairwise (· ≤ ·)) →
      (∀ p ∈ s.outputs, p.2 ≤ s.sampleCount) →
      (((tr.foldl step s).outputs.map Prod.snd).Pairwise (· ≤ ·)) ∧
      (∀ p ∈ (tr.foldl step s).outputs, p.2 ≤ (tr.foldl step s).sampleCount) := by
  induction tr with
  | nil => intro s h1 h2; exact ⟨h1, h2⟩
  | cons e tr ih =>
    intro s h1 h2
    cases e with
    | callback d =>
      have hfold : (Ev.callback d :: tr).foldl step s
          = tr.foldl step (step s (Ev.callback d)) := rfl
      rw [hfold]
      refine ih (step s (Ev.callback d)) h1 ?_
      intro p hp
      have := h2 p hp
      simp only [step]
      omega
    | recv =>
      have hfold : (Ev.recv :: tr).foldl step s
          = tr.foldl step (step s Ev.recv) := rfl
      rw [hfold]
      rcases hq : s.queue with _ | ⟨d, rest⟩
      · have hstep : step s Ev.recv = s := by simp [step, hq]
        rw [hstep]
        exact ih s h1 h2
      · have hstep : step s Ev.recv = { s with queue := rest, outputs := s.outputs ++ [(d, s.sampleCount)] } := by
          simp [step, hq]
        rw [hstep]
        refine ih _ ?_ ?_
        · simp only [List.map_append, List.map_cons, List.map_nil]
          rw [List.pairwise_append]
          refine ⟨h1, List.pairwise_singleton _ _, ?_⟩
          intro a ha b hb
          simp only [List.mem_singleton] at hb
          subst hb
          rcases List.mem_map.mp ha with ⟨p, hp, rfl⟩
          exact h2 p hp
        · intro p hp
          simp only [List.mem_append, List.mem_singleton] at hp
          rcases hp with hp | hp
          · exact h2 p hp
          · subst hp; exact le_refl _

theorem foldl_step_count (tr : List Ev) :
    ∀ s : TrackRun,
      (tr.foldl step s).sampleCount
        = s.sampleCount + FRAME_SAMPLES * (capturedOf tr).length := by
  induction tr with
  | nil => intro s; simp [capturedOf]
  | cons e tr ih =>
    intro s
    cases e with
    | callback d =>
      have hfold : (Ev.callback d :: tr).foldl step s
          = tr.foldl step (step s (Ev.callback d)) := rfl
      rw [hfold, ih, capturedOf_callback]
      simp only [step, List.length_cons]
      ring
    | recv =>
      have hfold : (Ev.recv :: tr).foldl step s
          = tr.foldl step (step s Ev.recv) := rfl
      rw [hfold, ih, capturedOf_recv]
      rcases hq : s.queue with _ | ⟨d, rest⟩
      · simp [step, hq]
      · simp [step, hq]

theorem foldl_step_alt (bufs : List Nat) :
    ∀ s : TrackRun, s.queue = [] →
      (altTrace bufs).foldl step s
        = ⟨[], s.sampleCount + FRAME_SAMPLES * bufs.length,
            s.outputs ++ stamps s.sampleCount bufs⟩ := by
  induction bufs with
  | nil =>
    intro s hq
    rcases s with ⟨q, c, o⟩
    simp only [altTrace, List.foldl_nil, stamps, List.append_nil,
      List.length_nil, Nat.mul_zero, Nat.add_zero]
    simp only at hq
    rw [hq]
  | cons b bs ih =>
    intro s hq
    have h1 : step s (Ev.callback b)
        = { s with sampleCount := s.sampleCount + FRAME_SAMPLES,
                   queue := [b] } := by
      have hpf : pushFrame s.queue b = [b] := by
        rw [hq, pushFrame_of_lt _ _ (by simp [queueCapacity])]
        simp
      simp [step, hpf]
    have h2 : step (step s (Ev.callback b)) Ev.recv
        = { s with queue := [],
                   sampleCount := s.sampleCount + FRAME_SAMPLES,
                   outputs := s.outputs ++ [(b, s.sampleCount + FRAME_SAMPLES)] } := by
      rw [h1]
      simp [step]
    have hfold : (altTrace (b :: bs)).foldl step s
        = (altTrace bs).foldl step (step (step s (Ev.callback b)) Ev.recv) := rfl
    rw [hfold, h2, ih _ (by simp)]
    simp only [TrackRun.mk.injEq, stamps, List.length_cons]
    refine ⟨trivial, by ring, ?_⟩
    simp [List.append_assoc]

theorem chain'_stamps (bufs : List Nat) :
    ∀ c : Nat, List.Chain' (fun p q : Nat × Nat => q.2 = p.2 + FRAME_SAMPLES)
      (stamps c bufs) := by
  induction bufs with
  | nil => intro c; simp [stamps]
  | cons b bs ih =>
    intro c
    cases bs with
    | nil => simp [stamps]
    | cons b2 bs2 =>
      rw [show stamps c (b :: b2 :: bs2)
          = (b, c + FRAME_SAMPLES) :: stamps (c + FRAME_SAMPLES) (b2 :: bs2) from rfl]
      rw [show stamps (c + FRAME_SAMPLES) (b2 :: bs2)
          = (b2, c + FRAME_SAMPLES + FRAME_SAMPLES)
            :: stamps (c + FRAME_SAMPLES + FRAME_SAMPLES) bs2 from rfl]
      rw [List.chain'_cons]
      constructor
      · rfl
      · have := ih (c + FRAME_SAMPLES)
        rw [show stamps (c + FRAME_SAMPLES) (b2 :: bs2)
            = (b2, c + FRAME_SAMPLES + FRAME_SAMPLES)
              :: stamps (c + FRAME_SAMPLES + FRAME_SAMPLES) bs2 from rfl] at this
        exact this

/-- Counterexample to C1: in the schedule where the capture callback fires
twice before the transport calls `recv` twice, both returned frames carry
`pts = 2 * FRAME_SAMPLES` (the `_sample_count` read at dequeue time), so
the presentation timestamps of consecutive frames are not strictly
increasing by exactly `FRAME_SAMPLES`. -/
theorem recv_pts_counterexample :
    (runTrace [Ev.callback 0, Ev.callback 1, Ev.recv, Ev.recv]).outputs
      = [(0, 2 * FRAME_SAMPLES), (1, 2 * FRAME_SAMPLES)] ∧
    ¬ StrictlyIncBy FRAME_SAMPLES
      ((runTrace [Ev.callback 0, Ev.callback 1, Ev.recv, Ev.recv]).outputs.map
        Prod.snd) := by
  constructor
  · decide
  · intro h
    have hmap : (runTrace [Ev.callback 0, Ev.callback 1, Ev.recv,
        Ev.recv]).outputs.map Prod.snd
        = [2 * FRAME_SAMPLES, 2 * FRAME_SAMPLES] := by decide
    rw [StrictlyIncBy, hmap, List.chain'_cons] at h
    exact absurd h.1 (by decide)

/-- C1 (amended) -- The running sample counter is incremented by
`FRAME_SAMPLES` on each capture callback (not on dequeue), and each frame
returned by `recv` carries `pts` equal to the counter read at dequeue time.
Consequently the presentation timestamps are monotonically nondecreasing
for the lifetime of one run, and in the schedule where exactly one callback
fires between consecutive dequeues they strictly increase by exactly
`FRAME_SAMPLES`; in general consecutive timestamps may coincide or jump by
a larger multiple of `FRAME_SAMPLES`. -/
theorem recv_pts_amended :
    (∀ tr : List Ev, ((runTrace tr).outputs.map Prod.snd).Pairwise (· ≤ ·)) ∧
    (∀ tr : List Ev,
      (runTrace tr).sampleCount = FRAME_SAMPLES * (capturedOf tr).length) ∧
    (∀ bufs : List Nat, (runTrace (altTrace bufs)).outputs = stamps 0 bufs ∧
      StrictlyIncBy FRAME_SAMPLES
        ((runTrace (altTrace bufs)).outputs.map Prod.snd)) := by
  refine ⟨?_, ?_, ?_⟩
  · intro tr
    exact (foldl_step_mono tr initTrack (by simp [initTrack])
      (by simp [initTrack])).1
  · intro tr
    have := foldl_step_count tr initTrack
    simpa [runTrace, initTrack] using this
  · intro bufs
    have halt := foldl_step_alt bufs initTrack rfl
    have houts : (runTrace (altTrace bufs)).outputs = stamps 0 bufs := by
      rw [runTrace, halt]
      simp [initTrack]
    refine ⟨houts, ?_⟩
    rw [houts, StrictlyIncBy, List.chain'_map]
    exact chain'_stamps bufs 0

/-- C8 -- Every frame returned by `recv` carries a buffer that was actually
delivered by the capture callback during the run, and `recv` on an empty
queue suspends, returning no frame: no silence frame is ever synthesized on
underrun. -/
theorem recv_never_fabricates :
    (∀ (tr : List Ev) (p : Nat × Nat),
      p ∈ (runTrace tr).outputs → p.1 ∈ capturedOf tr) ∧
    (∀ s : TrackRun, s.queue = [] → recvStep s = none) := by
  constructor
  · intro tr p hp
    rcases (foldl_step_mem tr initTrack).2 p hp with h | h | h
    · simp [initTrack] at h
    · simp [initTrack] at h
    · exact h
  · intro s hq
    simp [recvStep, hq]

/-- Witness for C8 at the concrete schedule `[callback 5, recv]`: the one
output frame carries buffer `5`, which was captured, and `recv` from the
initial (empty-queue) state suspends. -/
theorem recv_never_fabricates_witness :
    (5, FRAME_SAMPLES).1 ∈ capturedOf [Ev.callback 5, Ev.recv] ∧
    recvStep initTrack = none :=
  ⟨recv_never_fabricates.1 [Ev.callback 5, Ev.recv] (5, FRAME_SAMPLES)
      (by decide),
    recv_never_fabricates.2 initTrack rfl⟩

/-! ### Device selection: `SystemAudioTrack._find_loopback` -/

/-- A device record as enumerated by `sd.query_devices()`: its name and its
`max_input_channels` field. -/
structure Device : Type where
  name : String
  maxInputChannels : Nat
deriving DecidableEq

/-- The priority keyword list of `_find_loopback`, in source order. -/
def priorityKeywords : List String :=
  ["cable output", "monitor", "stereo mix", "loopback", "pulse",
    "what u hear"]

/-- Substring containment on character lists (the semantics of Python's
`keyword in name`): some suffix of the haystack starts with the needle. -/
def containsSub (needle : List Char) : List Char → Bool
  | [] => needle.isEmpty
  | a :: rest => needle.isPrefixOf (a :: rest) || containsSub needle rest

/-- `keyword in d['name'].lower()`: case-insensitive substring match of the
(lowercase) keyword against the lowercased device name. -/
def kwMatch (name kw : String) : Bool :=
  containsSub kw.toList (name.toList.map Char.toLower)

/-- The selection condition of `_find_loopback`:
`d['max_input_channels'] > 0 and keyword in name`. -/
def devOk (d : Device) (kw : String) : Bool :=
  decide (0 < d.maxInputChannels) && kwMatch d.name kw

/-- The inner `for i, d in enumerate(devices)` loop for one keyword:
the index of the first device satisfying `devOk`, if any. -/
def findFrom (kw : String) : Nat → List Device → Option Nat
  | _, [] => none
  | i, d :: ds => if devOk d kw then some i else findFrom kw (i + 1) ds

/-- The outer `for keyword in priority_keywords` loop. -/
def findLoopbackGo (devices : List Device) : List String → Option Nat
  | [] => none
  | kw :: rest =>
    match findFrom kw 0 devices with
    | some i => some i
    | none => findLoopbackGo devices rest

/-- `_find_loopback`: priority-ordered keyword search; `none` models the
Python `return None`, i.e. falling back to the default input device. -/
def findLoopback (devices : List Device) : Option Nat :=
  findLoopbackGo devices priorityKeywords

/-- The device list of the C5 scenario, all with input channels. -/
def scenarioDevs : List Device :=
  [⟨"Microphone", 2⟩, ⟨"CABLE Output (VB-Audio)", 2⟩, ⟨"Speakers", 2⟩]

/-- The device the C5 scenario must select. -/
def cableDev : Device := ⟨"CABLE Output (VB-Audio)", 2⟩

theorem findFrom_none (kw : String) (devs : List Device)
    (h : ∀ d ∈ devs, devOk d kw = false) :
    ∀ i : Nat, findFrom kw i devs = none := by
  induction devs with
  | nil => intro i; rfl
  | cons d ds ih =>
    intro i
    have hd : devOk d kw = false := h d (List.mem_cons_self d ds)
    rw [findFrom, hd]
    simp only [Bool.false_eq_true, if_false]
    exact ih (fun d' hd' => h d' (List.mem_cons_of_mem d hd')) (i + 1)

theorem findFrom_some (kw : String) (devs : List Device) :
    ∀ (i j : Nat), findFrom kw i devs = some j →
      i ≤ j ∧ ∃ d, devs[j - i]? = some d ∧ devOk d kw = true := by
  induction devs with
  | nil => intro i j h; exact absurd h (by simp [findFrom])
  | cons d ds ih =>
    intro i j h
    rw [findFrom] at h
    by_cases hd : devOk d kw = true
    · rw [if_pos hd, Option.some.injEq] at h
      subst h
      exact ⟨Nat.le_refl _, d, by simp, hd⟩
    · rw [if_neg hd] at h
      obtain ⟨hle, d', hget, hok⟩ := ih (i + 1) j h
      refine ⟨Nat.le_of_succ_le hle, d', ?_, hok⟩
      have hsub : j - i = (j - (i + 1)) + 1 := by omega
      rw [hsub, List.getElem?_cons_succ]
      exact hget

theorem findLoopbackGo_some (devs : List Device) :
    ∀ (kws : List String) (j : Nat), findLoopbackGo devs kws = some j →
      ∃ d, devs[j]? = some d ∧ ∃ kw ∈ kws, devOk d kw = true := by
  intro kws
  induction kws with
  | nil => intro j h; exact absurd h (by simp [findLoopbackGo])
  | cons kw rest ih =>
    intro j h
    rw [findLoopbackGo] at h
    rcases hf : findFrom kw 0 devs with _ | i
    · rw [hf] at h
      obtain ⟨d, hget, kw', hmem, hok⟩ := ih j h
      exact ⟨d, hget, kw', List.mem_cons_of_mem kw hmem, hok⟩
    · rw [hf, Option.some.injEq] at h
      subst h
      obtain ⟨-, d, hget, hok⟩ := findFrom_some kw devs 0 i hf
      rw [Nat.sub_zero] at hget
      exact ⟨d, hget, kw, List.mem_cons_self kw rest, hok⟩

/-- C5 -- Device selection by priority-ordered, case-insensitive substring
keyword match: the scenario list selects index 1 (the "cable output"
match); any permutation of the scenario list selects the CABLE Output
device wherever it sits; and when no keyword matches any input device the
selection falls back to the default device (`none`). -/
theorem find_loopback_priority :
    (findLoopback scenarioDevs = some 1) ∧
    (∀ l : List Device, scenarioDevs.Perm l →
      (findLoopback l).bind (fun i => l[i]?) = some cableDev) ∧
    (∀ devs : List Device,
      (∀ kw ∈ priorityKeywords, ∀ d ∈ devs, devOk d kw = false) →
      findLoopback devs = none) := by
  refine ⟨by decide, ?_, ?_⟩
  · have hall : ∀ l ∈ scenarioDevs.permutations',
        (findLoopback l).bind (fun i => l[i]?) = some cableDev := by decide
    intro l hp
    exact hall l (List.mem_permutations'.mpr hp.symm)
  · intro devs h
    rw [findLoopback]
    have : ∀ kws : List String,
        (∀ kw ∈ kws, ∀ d ∈ devs, devOk d kw = false) →
        findLoopbackGo devs kws = none := by
      intro kws
      induction kws with
      | nil => intro _; rfl
      | cons kw rest ih =>
        intro hk
        rw [findLoopbackGo,
          findFrom_none kw devs (hk kw (List.mem_cons_self kw rest)) 0]
        exact ih (fun kw' hm => hk kw' (List.mem_cons_of_mem kw hm))
    exact this priorityKeywords h

/-- Witness for C5: the identity permutation of the scenario selects the
CABLE Output device, and a device list with no keyword match falls back to
the default device. -/
theorem find_loopback_priority_witness :
    ((findLoopback scenarioDevs).bind (fun i => scenarioDevs[i]?)
      = some cableDev) ∧
    findLoopback [⟨"Speakers", 2⟩] = none :=
  ⟨find_loopback_priority.2.1 scenarioDevs (List.Perm.refl _),
    find_loopback_priority.2.2 [⟨"Speakers", 2⟩] (by decide)⟩

/-- C10 -- Device selection never returns a device with zero input
channels: any selected index carries an input-capable device matching a
priority keyword; an output-only device whose name contains a keyword is
skipped, falling through to lower-priority matches (index 1 here) or, when
nothing else matches, to the default device. -/
theorem find_loopback_skips_output_only :
    (∀ (devs : List Device) (j : Nat), findLoopback devs = some j →
      ∃ d, devs[j]? = some d ∧ 0 < d.maxInputChannels ∧
        ∃ kw ∈ priorityKeywords, kwMatch d.name kw = true) ∧
    (findLoopback [⟨"CABLE Output (VB-Audio)", 0⟩, ⟨"Monitor of Speakers", 2⟩]
      = some 1) ∧
    (findLoopback [⟨"CABLE Output (VB-Audio)", 0⟩] = none) := by
  refine ⟨?_, by decide, by decide⟩
  intro devs j h
  obtain ⟨d, hget, kw, hmem, hok⟩ := findLoopbackGo_some devs priorityKeywords j h
  rw [devOk, Bool.and_eq_true, decide_eq_true_eq] at hok
  exact ⟨d, hget, hok.1, kw, hmem, hok.2⟩

/-- Witness for C10: the single-device list `["Pulse"]` (input-capable)
selects index 0, and the theorem yields its keyword match. -/
theorem find_loopback_skips_output_only_witness :
    ∃ d, ([⟨"Pulse", 2⟩] : List Device)[0]? = some d ∧
      0 < d.maxInputChannels ∧
      ∃ kw ∈ priorityKeywords, kwMatch d.name kw = true :=
  find_loopback_skips_output_only.1 [⟨"Pulse", 2⟩] 0 (by decide)

/-! ### Signaling: the `offer` HTTP handler -/

/-- The parsed JSON body of a `POST /offer` request: each expected field
present or missing. At the call sites, `none` (outer level) models a body
that is not valid JSON at all, so `await request.json()` raises. -/
structure OfferBody : Type where
  sdp : Option String
  typ : Option String
deriving DecidableEq

/-- Failures of the offer handler, each surfaced by aiohttp as a non-2xx
response: `request.json()` raising on a malformed body, `params[...]`
raising `KeyError` on a missing field, or the transport negotiation
(`setRemoteDescription` / `createAnswer` / `setLocalDescription`) raising. -/
inductive SignalingFailure : Type
  | badBody
  | missingField
  | negotiationFailed
deriving DecidableEq

/-- Outcome of the transport collaborator's negotiation, an input to the
handler model: an answer description, or a failure raised mid-negotiation. -/
inductive NegoOutcome : Type
  | ok (sdp : String) (typ : String)
  | fail
deriving DecidableEq

/-- The `offer` handler over the `pcs` registry (peer connections modelled
by identifiers): parse the body, build the session description from
`params["sdp"]` / `params["type"]` (raising on a missing field), create the
peer connection `newPc`, add it to `pcs` (`pcs.add(pc)`), subscribe it to
the relay, then negotiate. An exception anywhere propagates as an error
response; no path of the handler removes anything from `pcs`. -/
def offerHandler (body : Option OfferBody) (newPc : Nat) (nego : NegoOutcome)
    (pcs : Finset Nat) :
    Except SignalingFailure (String × String) × Finset Nat :=
  match body with
  | none => (.error .badBody, pcs)
  | some b =>
    match b.sdp, b.typ with
    | some _, some _ =>
      let pcs1 := insert newPc pcs
      match nego with
      | .ok asdp atyp => (.ok (asdp, atyp), pcs1)
      | .fail => (.error .negotiationFailed, pcs1)
    | _, _ => (.error .missingField, pcs)

/-- C3 -- A syntactically invalid offer body (not JSON, or lacking the
`sdp` field) makes the handler fail with an error (a non-2xx response)
before a peer connection is created: the registry is unchanged, no session
is registered. -/
theorem offer_invalid_body_rejected (body : Option OfferBody) (newPc : Nat)
    (nego : NegoOutcome) (pcs : Finset Nat)
    (h : body = none ∨ ∃ b, body = some b ∧ b.sdp = none) :
    (∃ e, (offerHandler body newPc nego pcs).1 = .error e) ∧
    (offerHandler body newPc nego pcs).2 = pcs := by
  rcases h with rfl | ⟨b, rfl, hsdp⟩
  · exact ⟨⟨.badBody, rfl⟩, rfl⟩
  · rcases b with ⟨sdp, typ⟩
    simp only at hsdp
    subst hsdp
    cases typ <;> exact ⟨⟨.missingField, rfl⟩, rfl⟩

/-- Witness for C3: a non-JSON body, and a JSON body missing `sdp`, both
leave the registry `{3}` unchanged and yield an error. -/
theorem offer_invalid_body_rejected_witness :
    ((∃ e, (offerHandler none 7 NegoOutcome.fail {3}).1 = .error e) ∧
      (offerHandler none 7 NegoOutcome.fail {3}).2 = {3}) ∧
    ((∃ e, (offerHandler (some ⟨none, some "offer"⟩) 7 NegoOutcome.fail
        {3}).1 = .error e) ∧
      (offerHandler (some ⟨none, some "offer"⟩) 7 NegoOutcome.fail {3}).2
        = {3}) :=
  ⟨offer_invalid_body_rejected none 7 .fail {3} (Or.inl rfl),
    offer_invalid_body_rejected (some ⟨none, some "offer"⟩) 7 .fail {3}
      (Or.inr ⟨⟨none, some "offer"⟩, rfl, rfl⟩)⟩

/-- C9 -- With a well-formed body, the new peer connection is registered
before negotiation; when negotiation fails the handler raises, and the
failed connection remains registered: the registry is `insert newPc pcs`,
and the error path removes nothing. -/
theorem offer_failed_nego_stays_registered (b : OfferBody) (newPc : Nat)
    (pcs : Finset Nat) (hsdp : b.sdp.isSome) (htyp : b.typ.isSome) :
    (offerHandler (some b) newPc NegoOutcome.fail pcs).1
      = .error .negotiationFailed ∧
    (offerHandler (some b) newPc NegoOutcome.fail pcs).2
      = insert newPc pcs ∧
    newPc ∈ (offerHandler (some b) newPc NegoOutcome.fail pcs).2 ∧
    pcs ⊆ (offerHandler (some b) newPc NegoOutcome.fail pcs).2 := by
  rcases b with ⟨_ | s, _ | t⟩
  · simp at hsdp
  · simp at hsdp
  · simp at htyp
  · exact ⟨rfl, rfl, Finset.mem_insert_self _ _, Finset.subset_insert _ _⟩

/-- Witness for C9: a concrete well-formed offer with failing negotiation
leaves connection `7` registered alongside the pre-existing `3`. -/
theorem offer_failed_nego_stays_registered_witness :
    (offerHandler (some ⟨some "v=0", some "offer"⟩) 7 NegoOutcome.fail
        {3}).1 = .error .negotiationFailed ∧
    (offerHandler (some ⟨some "v=0", some "offer"⟩) 7 NegoOutcome.fail
        {3}).2 = insert 7 {3} ∧
    7 ∈ (offerHandler (some ⟨some "v=0", some "offer"⟩) 7 NegoOutcome.fail
        ({3} : Finset Nat)).2 ∧
    ({3} : Finset Nat) ⊆ (offerHandler (some ⟨some "v=0", some "offer"⟩) 7
        NegoOutcome.fail {3}).2 :=
  offer_failed_nego_stays_registered ⟨some "v=0", some "offer"⟩ 7 {3} rfl rfl

/-! ### Session failure cleanup: `on_connectionstatechange` -/

/-- The `connectionState` values of an aiortc peer connection. -/
inductive ConnState : Type
  | new | connecting | connected | failed | closed
deriving DecidableEq

/-- A peer connection as the state-change handler sees it: its registry
id, its connection state, and whether its relay subscription has been
released. -/
structure PeerConn : Type where
  id : Nat
  connectionState : ConnState
  subReleased : Bool
deriving DecidableEq

/-- `pc.close()` of the transport collaborator: transitions the connection
to `closed` (a no-op when already closed) and releases the session's relay
subscription by stopping its tracks. -/
def closePC (p : PeerConn) : PeerConn :=
  { p with connectionState := .closed, subReleased := true }

/-- The failure branch body: `await pc.close(); pcs.discard(pc)`
(`discard` never raises, also when the id is absent). -/
def failureCleanup (p : PeerConn) (pcs : Finset Nat) :
    PeerConn × Finset Nat :=
  (closePC p, pcs.erase p.id)

/-- The full `on_connectionstatechange` handler: reacts only to the
`failed` state. -/
def onConnectionStateChange (p : PeerConn) (pcs : Finset Nat) :
    PeerConn × Finset Nat :=
  if p.connectionState = ConnState.failed then failureCleanup p pcs
  else (p, pcs)

/-- Lift a handler on (connection, registry) to the pair state. -/
def applyPC (f : PeerConn → Finset Nat → PeerConn × Finset Nat)
    (s : PeerConn × Finset Nat) : PeerConn × Finset Nat :=
  f s.1 s.2

/-- C6 -- The failure-handling path is idempotent: running
`pc.close(); pcs.discard(pc)` twice leaves the same connection state,
subscription state and registry as running it once, with no error on the
second run; the same holds for the whole guarded handler. -/
theorem failure_cleanup_idempotent (p : PeerConn) (pcs : Finset Nat) :
    applyPC failureCleanup (applyPC failureCleanup (p, pcs))
      = applyPC failureCleanup (p, pcs) ∧
    applyPC onConnectionStateChange
        (applyPC onConnectionStateChange (p, pcs))
      = applyPC onConnectionStateChange (p, pcs) := by
  constructor
  · simp [applyPC, failureCleanup, closePC, Finset.erase_idem]
  · by_cases h : p.connectionState = ConnState.failed
    · simp [applyPC, onConnectionStateChange, failureCleanup, closePC, h]
    · simp [applyPC, onConnectionStateChange, h]

/-! ### Capture stop: `SystemAudioTrack.stop` -/

/-- The sounddevice `InputStream` as `stop` observes it: whether it is
running and whether it has been closed. `InputStream.stop()` and
`InputStream.close()` are safe on an already stopped or closed stream
(`close(ignore_errors=True)` is the sounddevice default). -/
structure CapStream : Type where
  active : Bool
  closed : Bool
deriving DecidableEq

/-- A `SystemAudioTrack` as `stop` observes it: `self._stream` (set by
`start_capture`, still `None` when startup failed before the stream was
opened) and the ended flag set by `MediaStreamTrack.stop` (the
`super().stop()` call). -/
structure TrackHandle : Type where
  stream : Option CapStream
  ended : Bool
deriving DecidableEq

/-- `SystemAudioTrack.stop`: if a stream was opened, stop and close it;
then `super().stop()`. Total -- no path raises. -/
def trackStop (t : TrackHandle) : TrackHandle :=
  match t.stream with
  | none => { t with ended := true }
  | some _ => { stream := some ⟨false, true⟩, ended := true }

/-- C7 -- `stop()` is idempotent: a second call leaves the stream and the
track in exactly the state of the first; and it is safe to call when
`start` failed before any capture stream was opened (`_stream` is `None`),
where it only marks the track ended. -/
theorem track_stop_idempotent :
    (∀ t : TrackHandle, trackStop (trackStop t) = trackStop t) ∧
    trackStop ⟨none, false⟩ = ⟨none, true⟩ := by
  refine ⟨fun t => ?_, rfl⟩
  rcases t with ⟨_ | s, e⟩ <;> rfl

/-! ### Shutdown: `on_shutdown` -/

/-- One registered client session at shutdown time: its registry id and
its cleanup flags (transport handle closed, relay subscription released). -/
structure Session : Type where
  id : Nat
  closed : Bool
  subReleased : Bool
deriving DecidableEq

/-- `pc.close()` during shutdown: closes the transport handle and releases
the session's relay subscription (same cleanup as on failure). -/
def closeSession (s : Session) : Session :=
  { s with closed := true, subReleased := true }

/-- Observable shutdown actions, in execution order. -/
inductive ShutdownEv : Type
  | closeClient (id : Nat)
  | stopCapture
deriving DecidableEq

/-- The server state `on_shutdown` operates on: the `pcs` registry (in its
iteration order) and the global `audio_track` (`None` when startup never
ran). -/
structure ServerState : Type where
  sessions : List Session
  audioTrack : Option TrackHandle
deriving DecidableEq

/-- `on_shutdown`: awaits `pc.close()` for every registered connection
(`asyncio.gather` over all of them completes before the statement after
it), clears `pcs`, then calls `audio_track.stop()` if the track exists.
Returns the emitted action sequence, the closed sessions, and the final
state. -/
def onShutdown (sv : ServerState) :
    List ShutdownEv × List Session × ServerState :=
  (sv.sessions.map (fun s => ShutdownEv.closeClient s.id)
      ++ (match sv.audioTrack with
          | some _ => [ShutdownEv.stopCapture]
          | none => []),
    sv.sessions.map closeSession,
    { sessions := [], audioTrack := sv.audioTrack.map trackStop })

/-- C4 -- With a running capture track and any number of registered
sessions, shutdown closes every session (handle closed, subscription
released) strictly before capture is stopped, stops capture exactly once,
and empties the registry. -/
theorem shutdown_closes_all_then_stops (sv : ServerState) (t : TrackHandle)
    (h : sv.audioTrack = some t) :
    (∃ pre, (onShutdown sv).1 = pre ++ [ShutdownEv.stopCapture] ∧
      ShutdownEv.stopCapture ∉ pre ∧
      ∀ s ∈ sv.sessions, ShutdownEv.closeClient s.id ∈ pre) ∧
    (onShutdown sv).1.count ShutdownEv.stopCapture = 1 ∧
    (onShutdown sv).2.1 = sv.sessions.map closeSession ∧
    (∀ c ∈ (onShutdown sv).2.1, c.closed = true ∧ c.subReleased = true) ∧
    (onShutdown sv).2.2.sessions = [] ∧
    (onShutdown sv).2.2.audioTrack = some (trackStop t) := by
  have hev : (onShutdown sv).1
      = sv.sessions.map (fun s => ShutdownEv.closeClient s.id)
        ++ [ShutdownEv.stopCapture] := by
    simp [onShutdown, h]
  have hpre : ShutdownEv.stopCapture
      ∉ sv.sessions.map (fun s => ShutdownEv.closeClient s.id) := by
    intro hmem
    rcases List.mem_map.mp hmem with ⟨s, -, hs⟩
    exact ShutdownEv.noConfusion hs
  refine ⟨⟨sv.sessions.map (fun s => ShutdownEv.closeClient s.id),
      hev, hpre, ?_⟩, ?_, rfl, ?_, rfl, ?_⟩
  · intro s hs
    exact List.mem_map.mpr ⟨s, hs, rfl⟩
  · rw [hev, List.count_append]
    rw [List.count_eq_zero.mpr hpre]
    rfl
  · intro c hc
    rcases List.mem_map.mp hc with ⟨s, -, rfl⟩
    exact ⟨rfl, rfl⟩
  · simp [onShutdown, h]

/-- The concrete server of the C4 scenario: three active sessions and a
running capture track. -/
def threeSessionServer : ServerState :=
  ⟨[⟨1, false, false⟩, ⟨2, false, false⟩, ⟨3, false, false⟩],
    some ⟨some ⟨true, false⟩, false⟩⟩

/-- Witness for C4 at the three-session scenario: capture is stopped
exactly once, every session ends closed with its subscription released,
and the registry is emptied. -/
theorem shutdown_closes_all_then_stops_witness :
    (onShutdown threeSessionServer).1.count ShutdownEv.stopCapture = 1 ∧
    (∀ c ∈ (onShutdown threeSessionServer).2.1,
      c.closed = true ∧ c.subReleased = true) ∧
    (onShutdown threeSessionServer).2.2.sessions = [] :=
  ⟨(shutdown_closes_all_then_stops threeSessionServer
      ⟨some ⟨true, false⟩, false⟩ rfl).2.1,
    (shutdown_closes_all_then_stops threeSessionServer
      ⟨some ⟨true, false⟩, false⟩ rfl).2.2.2.1,
    (shutdown_closes_all_then_stops threeSessionServer
      ⟨some ⟨true, false⟩, false⟩ rfl).2.2.2.2.1⟩

end AudioStream
